import Mathlib

/-!
Shallow embedding of the resilience/choreography core of the mini-shop
event pipeline, together with theorems settling the specification claims.

Conventions of the embedding:
* Go `time.Time` / `time.Duration` values are modelled as `Int` nanosecond
  counts; `time.Since(t)` at instant `now` is `now - t`.
* Go `int` is modelled as `Int`, `float64` amounts as `ℚ` (only sign tests
  and equality of amounts matter to the claims).
* The pseudo-random draws of the payment engine are explicit parameters.
* Database tables are modelled as lists of rows; a SQL `UPDATE ... WHERE`
  is a map over the rows guarded by the `WHERE` predicate.
-/

namespace MiniShop

/-! ## Circuit breaker (order-service/circuitbreaker/circuitbreaker.go) -/

namespace CB

/-- The three breaker states, mirroring `StateClosed`, `StateOpen`,
`StateHalfOpen` in the source. -/
inductive State where
  | StateClosed
  | StateOpen
  | StateHalfOpen
deriving DecidableEq, Repr

/-- Mirrors the `CircuitBreaker` struct: configuration plus mutable fields.
`maxFailures` and `failureCount` are Go `int` values, hence `Int` here. -/
structure CircuitBreaker where
  maxFailures : Int
  resetTimeout : Int
  failureCount : Int
  lastFailureTime : Int
  state : State
deriving DecidableEq, Repr

/-- Mirrors `NewCircuitBreaker`: zero-valued counters and `StateClosed`.
The Go zero value of `time.Time` is modelled as instant `0`. -/
def NewCircuitBreaker (maxFailures resetTimeout : Int) : CircuitBreaker :=
  { maxFailures := maxFailures
    resetTimeout := resetTimeout
    failureCount := 0
    lastFailureTime := 0
    state := State.StateClosed }

/-- Result of one `Execute` call: the fast-fail error, the wrapped
operation error propagated, or success. -/
inductive ExecResult where
  | ErrCircuitOpen
  | OpError
  | Ok
deriving DecidableEq, Repr

/-- Observable outcome of one `Execute` call: the returned error (if any),
the post-state of the breaker, and whether the wrapped `fn` was invoked. -/
structure ExecOutcome where
  result : ExecResult
  cb : CircuitBreaker
  invoked : Bool
deriving DecidableEq, Repr

/-- The part of `Execute` after the open-state check: invoke `fn` (whose
outcome is the boolean `opFails`), then update counters and state exactly
as lines 54-77 of the source do. -/
def executeInvoke (cb : CircuitBreaker) (now : Int) (opFails : Bool) : ExecOutcome :=
  if opFails then
    let cb1 := { cb with failureCount := cb.failureCount + 1, lastFailureTime := now }
    let cb2 :=
      if cb1.failureCount ≥ cb1.maxFailures then
        { cb1 with state := State.StateOpen }
      else if cb1.state = State.StateHalfOpen then
        { cb1 with state := State.StateOpen }
      else cb1
    ⟨ExecResult.OpError, cb2, true⟩
  else
    let cb1 :=
      match cb.state with
      | State.StateHalfOpen => { cb with state := State.StateClosed, failureCount := 0 }
      | State.StateClosed => { cb with failureCount := 0 }
      | State.StateOpen => cb
    ⟨ExecResult.Ok, cb1, true⟩

/-- Mirrors `Execute`: the open-state fast-fail / half-open transition
check of lines 44-51, then the invocation path. `now` is the current
instant and `opFails` the outcome `fn` would produce if invoked. -/
def Execute (cb : CircuitBreaker) (now : Int) (opFails : Bool) : ExecOutcome :=
  if cb.state = State.StateOpen then
    if now - cb.lastFailureTime > cb.resetTimeout then
      executeInvoke { cb with state := State.StateHalfOpen, failureCount := 0 } now opFails
    else
      ⟨ExecResult.ErrCircuitOpen, cb, false⟩
  else
    executeInvoke cb now opFails

/-- Runs a sequence of `Execute` calls, each given as an (instant,
operation-fails) pair, keeping only the breaker state. -/
def run (cb : CircuitBreaker) (calls : List (Int × Bool)) : CircuitBreaker :=
  calls.foldl (fun c p => (Execute c p.1 p.2).cb) cb

@[simp]
theorem run_nil (cb : CircuitBreaker) : run cb [] = cb := rfl

@[simp]
theorem run_cons (cb : CircuitBreaker) (p : Int × Bool) (ps : List (Int × Bool)) :
    run cb (p :: ps) = run (Execute cb p.1 p.2).cb ps := rfl

@[simp]
theorem run_append (cb : CircuitBreaker) (l1 l2 : List (Int × Bool)) :
    run cb (l1 ++ l2) = run (run cb l1) l2 := by
  simp [run, List.foldl_append]

@[simp]
theorem Execute_maxFailures (cb : CircuitBreaker) (now : Int) (f : Bool) :
    (Execute cb now f).cb.maxFailures = cb.maxFailures := by
  cases hs : cb.state <;>
    simp only [Execute, executeInvoke, hs] <;>
    split_ifs <;> rfl

@[simp]
theorem Execute_resetTimeout (cb : CircuitBreaker) (now : Int) (f : Bool) :
    (Execute cb now f).cb.resetTimeout = cb.resetTimeout := by
  cases hs : cb.state <;>
    simp only [Execute, executeInvoke, hs] <;>
    split_ifs <;> rfl

/-- One failing call on a closed breaker that stays strictly below the
threshold: the breaker stays closed and just counts the failure. -/
theorem Execute_closed_fail_stay (cb : CircuitBreaker) (now : Int)
    (hc : cb.state = State.StateClosed) (hlt : cb.failureCount + 1 < cb.maxFailures) :
    (Execute cb now true).cb =
      { cb with failureCount := cb.failureCount + 1, lastFailureTime := now } := by
  simp only [Execute, executeInvoke, hc]
  split_ifs <;> first | rfl | (exfalso; first | assumption | omega)

/-- One failing call on a closed breaker that reaches the threshold:
the breaker opens. -/
theorem Execute_closed_fail_open (cb : CircuitBreaker) (now : Int)
    (hc : cb.state = State.StateClosed) (hge : cb.maxFailures ≤ cb.failureCount + 1) :
    (Execute cb now true).cb =
      { cb with failureCount := cb.failureCount + 1, lastFailureTime := now,
                state := State.StateOpen } := by
  simp only [Execute, executeInvoke, hc]
  split_ifs <;> first | rfl | (exfalso; first | assumption | omega)

/-- An open breaker probed while the reset timeout has not elapsed
fails fast: `ErrCircuitOpen`, no invocation, breaker untouched. -/
theorem Execute_open_fastfail (cb : CircuitBreaker) (now : Int) (f : Bool)
    (hs : cb.state = State.StateOpen)
    (ht : ¬(now - cb.lastFailureTime > cb.resetTimeout)) :
    Execute cb now f = ⟨ExecResult.ErrCircuitOpen, cb, false⟩ := by
  simp [Execute, hs, ht]

/-- A run of failing calls that stays strictly below the threshold keeps
the breaker closed and adds one failure per call. -/
theorem run_failures_stay_closed (times : List Int) (cb : CircuitBreaker)
    (hc : cb.state = State.StateClosed)
    (hlt : cb.failureCount + times.length < cb.maxFailures) :
    (run cb (times.map fun t => (t, true))).state = State.StateClosed ∧
    (run cb (times.map fun t => (t, true))).failureCount = cb.failureCount + times.length ∧
    (run cb (times.map fun t => (t, true))).maxFailures = cb.maxFailures ∧
    (run cb (times.map fun t => (t, true))).resetTimeout = cb.resetTimeout := by
  induction times generalizing cb with
  | nil =>
    refine ⟨by simpa using hc, by simp, by simp, by simp⟩
  | cons t ts ih =>
    have hlen : ((t :: ts).length : Int) = (ts.length : Int) + 1 := by
      simp only [List.length_cons]; push_cast; ring
    have hstep : (Execute cb t true).cb =
        { cb with failureCount := cb.failureCount + 1, lastFailureTime := t } := by
      apply Execute_closed_fail_stay cb t hc
      have hnn : (0 : Int) ≤ (ts.length : Int) := Int.ofNat_nonneg _
      rw [hlen] at hlt
      omega
    have h2 : cb.failureCount + 1 + (ts.length : Int) < cb.maxFailures := by
      rw [hlen] at hlt
      omega
    simp only [List.map_cons, run_cons, hstep]
    obtain ⟨ha, hb, hm, hr⟩ :=
      ih { cb with failureCount := cb.failureCount + 1, lastFailureTime := t } hc
        (by exact h2)
    refine ⟨ha, ?_, hm, hr⟩
    rw [hb, hlen]
    ring

/-- Strengthened reachability invariant used to prove claim C10. -/
def Inv (mf : Int) (cb : CircuitBreaker) : Prop :=
  cb.maxFailures = mf ∧ 1 ≤ mf ∧ 0 ≤ cb.failureCount ∧
  (cb.state = State.StateClosed → cb.failureCount < mf) ∧
  (cb.state = State.StateHalfOpen → cb.failureCount = 0) ∧
  (cb.state = State.StateOpen → 1 ≤ cb.failureCount ∧ cb.failureCount ≤ mf)

theorem Inv_init (mf rt : Int) (h : 1 ≤ mf) : Inv mf (NewCircuitBreaker mf rt) := by
  refine ⟨rfl, h, le_refl 0, fun _ => h, fun hs => ?_, fun hs => ?_⟩ <;> cases hs

theorem Inv_executeInvoke (mf : Int) (cb : CircuitBreaker) (now : Int) (f : Bool)
    (hno : cb.state ≠ State.StateOpen)
    (h : Inv mf cb) : Inv mf (executeInvoke cb now f).cb := by
  obtain ⟨hmf, h1, h0, hcl, hho, hop⟩ := h
  subst hmf
  have hcl2 : cb.state = State.StateClosed → cb.failureCount < cb.maxFailures := hcl
  have hho2 : cb.state = State.StateHalfOpen → cb.failureCount = 0 := hho
  have hop2 : cb.state = State.StateOpen →
      1 ≤ cb.failureCount ∧ cb.failureCount ≤ cb.maxFailures := hop
  cases f <;> cases hs : cb.state <;>
    rw [hs] at hcl2 hho2 hop2 <;>
    simp only [forall_true_left, reduceCtorEq, false_implies] at hcl2 hho2 hop2 <;>
    simp only [executeInvoke, hs] <;>
    split_ifs <;>
    first
      | (exact absurd hs hno)
      | (exfalso; assumption)
      | (exact absurd rfl (by assumption))
      | (refine ⟨rfl, h1, ?_, ?_, ?_, ?_⟩ <;> (try dsimp only) <;>
          first
            | omega
            | (intro hx
               first
                 | (exact absurd hx (by decide))
                 | (rw [hs] at hx
                    exact absurd hx (by decide))
                 | omega
                 | (exact ⟨by omega, by omega⟩)))

theorem Inv_Execute (mf : Int) (cb : CircuitBreaker) (now : Int) (f : Bool)
    (h : Inv mf cb) : Inv mf (Execute cb now f).cb := by
  by_cases hs : cb.state = State.StateOpen
  · by_cases ht : now - cb.lastFailureTime > cb.resetTimeout
    · have hH : Inv mf { cb with state := State.StateHalfOpen, failureCount := 0 } := by
        obtain ⟨hmf, h1, _, _, _, _⟩ := h
        refine ⟨hmf, h1, le_refl 0, ?_, ?_, ?_⟩ <;> intro hx
        · simp at hx
        · rfl
        · simp at hx
      have hres := Inv_executeInvoke mf _ now f (by simp) hH
      simpa [Execute, hs, ht] using hres
    · simpa [Execute, hs, ht] using h
  · have hres := Inv_executeInvoke mf cb now f hs h
    simpa [Execute, hs] using hres

theorem Inv_run (mf : Int) (cb : CircuitBreaker) (calls : List (Int × Bool))
    (h : Inv mf cb) : Inv mf (run cb calls) := by
  induction calls generalizing cb with
  | nil => simpa using h
  | cons p ps ih => exact ih _ (Inv_Execute mf cb p.1 p.2 h)

end CB

/-- **C1.** From a fresh breaker with `maxFailures ≥ 1`, any sequence of
`maxFailures` consecutive failing `Execute` calls leaves the breaker in
`StateOpen`, and the very next call made while no more than `resetTimeout`
has elapsed since the last failure returns `ErrCircuitOpen`, does not
invoke the wrapped operation, and leaves the breaker (state and failure
count included) completely unchanged. -/
theorem claim_C1_breaker_opens_then_fails_fast
    (mf rt : Int) (hmf : 1 ≤ mf)
    (times : List Int) (hlen : (times.length : Int) = mf)
    (cb1 : CB.CircuitBreaker)
    (hcb1 : cb1 = CB.run (CB.NewCircuitBreaker mf rt) (times.map fun t => (t, true)))
    (now : Int) (hnow : now - cb1.lastFailureTime ≤ rt) (opFails : Bool) :
    cb1.state = CB.State.StateOpen ∧
    CB.Execute cb1 now opFails =
      ⟨CB.ExecResult.ErrCircuitOpen, cb1, false⟩ := by
  obtain hnil | ⟨ts, t, hsplit⟩ := times.eq_nil_or_concat
  · exfalso
    rw [hnil] at hlen
    simp at hlen
    omega
  rw [List.concat_eq_append] at hsplit
  subst hsplit
  have hlen2 : ((ts.length : Int)) = mf - 1 := by
    simp only [List.length_append, List.length_cons, List.length_nil] at hlen
    push_cast at hlen ⊢
    omega
  have hfc : (CB.NewCircuitBreaker mf rt).failureCount = 0 := rfl
  have hmf0 : (CB.NewCircuitBreaker mf rt).maxFailures = mf := rfl
  have hrt0 : (CB.NewCircuitBreaker mf rt).resetTimeout = rt := rfl
  have hmid := CB.run_failures_stay_closed ts (CB.NewCircuitBreaker mf rt) rfl
    (by rw [hfc, hmf0]; omega)
  set cbm := CB.run (CB.NewCircuitBreaker mf rt) (ts.map fun t => (t, true)) with hcbm
  obtain ⟨hstate, hcount, hmax, hreset⟩ := hmid
  have hc0 : cbm.failureCount = mf - 1 := by
    rw [hcount, hfc]
    omega
  have hmaxm : cbm.maxFailures = mf := by rw [hmax, hmf0]
  have hresetm : cbm.resetTimeout = rt := by rw [hreset, hrt0]
  have hfinal : cb1 =
      { cbm with
          failureCount := cbm.failureCount + 1
          lastFailureTime := t
          state := CB.State.StateOpen } := by
    rw [hcb1]
    rw [List.map_append, List.map_cons, List.map_nil, CB.run_append, ← hcbm, CB.run_cons,
      CB.run_nil]
    rw [CB.Execute_closed_fail_open cbm t hstate (by omega)]
  have hstate1 : cb1.state = CB.State.StateOpen := by rw [hfinal]
  refine ⟨hstate1, ?_⟩
  have hrt1 : cb1.resetTimeout = rt := by
    rw [hfinal]
    show cbm.resetTimeout = rt
    exact hresetm
  apply CB.Execute_open_fastfail cb1 now opFails hstate1
  rw [hrt1]
  omega

/-- Witness for C1: `maxFailures = 2`, `resetTimeout = 5`, two failures at
instants 0 and 1, probe at instant 3. -/
theorem claim_C1_witness :
    (CB.run (CB.NewCircuitBreaker 2 5) ([0, 1].map fun t => (t, true))).state =
      CB.State.StateOpen ∧
    CB.Execute (CB.run (CB.NewCircuitBreaker 2 5) ([0, 1].map fun t => (t, true))) 3 true =
      ⟨CB.ExecResult.ErrCircuitOpen,
        CB.run (CB.NewCircuitBreaker 2 5) ([0, 1].map fun t => (t, true)), false⟩ :=
  claim_C1_breaker_opens_then_fails_fast 2 5 (by decide) [0, 1] (by decide) _ rfl 3
    (by decide) true

/-- **C2.** A breaker in `StateOpen` probed strictly after `resetTimeout`
has elapsed since the last failure invokes the wrapped operation (the
half-open probe, run with the failure count reset to 0): a successful
probe ends in `StateClosed` with failure count 0, a failing probe ends
back in `StateOpen` (with failure count 1, showing the half-open reset
happened regardless of the count before the probe). -/
theorem claim_C2_halfopen_probe (cb : CB.CircuitBreaker) (now : Int)
    (hopen : cb.state = CB.State.StateOpen)
    (helapsed : now - cb.lastFailureTime > cb.resetTimeout) :
    (CB.Execute cb now false).invoked = true ∧
    (CB.Execute cb now false).result = CB.ExecResult.Ok ∧
    (CB.Execute cb now false).cb.state = CB.State.StateClosed ∧
    (CB.Execute cb now false).cb.failureCount = 0 ∧
    (CB.Execute cb now true).invoked = true ∧
    (CB.Execute cb now true).result = CB.ExecResult.OpError ∧
    (CB.Execute cb now true).cb.state = CB.State.StateOpen ∧
    (CB.Execute cb now true).cb.failureCount = 1 := by
  simp only [CB.Execute, hopen, if_pos rfl, if_pos helapsed, CB.executeInvoke]
  norm_num

/-- Witness for C2: an open breaker with `maxFailures = 3`, last failure
at instant 0, `resetTimeout = 5`, probed at instant 6. -/
theorem claim_C2_witness :
    (CB.Execute ⟨3, 5, 3, 0, CB.State.StateOpen⟩ 6 false).cb.state =
      CB.State.StateClosed ∧
    (CB.Execute ⟨3, 5, 3, 0, CB.State.StateOpen⟩ 6 false).cb.failureCount = 0 ∧
    (CB.Execute ⟨3, 5, 3, 0, CB.State.StateOpen⟩ 6 true).cb.state =
      CB.State.StateOpen := by
  have h := claim_C2_halfopen_probe ⟨3, 5, 3, 0, CB.State.StateOpen⟩ 6 rfl (by decide)
  exact ⟨h.2.2.1, h.2.2.2.1, h.2.2.2.2.2.2.1⟩

/-- **C10.** Reachability invariant of the breaker state machine: for a
breaker built by `NewCircuitBreaker` with `maxFailures ≥ 1` and any finite
sequence of `Execute` calls with arbitrary outcomes and instants, the
failure count satisfies `0 ≤ failureCount ≤ maxFailures`, and whenever the
state is `StateOpen` the failure count is at least 1. -/
theorem claim_C10_breaker_invariant (mf rt : Int) (hmf : 1 ≤ mf)
    (calls : List (Int × Bool)) (cb : CB.CircuitBreaker)
    (hcb : cb = CB.run (CB.NewCircuitBreaker mf rt) calls) :
    0 ≤ cb.failureCount ∧ cb.failureCount ≤ cb.maxFailures ∧
    (cb.state = CB.State.StateOpen → 1 ≤ cb.failureCount) := by
  have h : CB.Inv mf cb := by
    rw [hcb]
    exact CB.Inv_run mf _ calls (CB.Inv_init mf rt hmf)
  obtain ⟨hmax, h1, h0, hcl, hho, hop⟩ := h
  refine ⟨h0, ?_, fun hs => (hop hs).1⟩
  rw [hmax]
  cases hs : cb.state with
  | StateClosed => have := hcl hs; omega
  | StateHalfOpen => have := hho hs; omega
  | StateOpen => exact (hop hs).2

/-- Witness for C10: `maxFailures = 2`, a mixed call sequence. -/
theorem claim_C10_witness :
    0 ≤ (CB.run (CB.NewCircuitBreaker 2 7) [(0, true), (1, true), (9, false)]).failureCount ∧
    (CB.run (CB.NewCircuitBreaker 2 7) [(0, true), (1, true), (9, false)]).failureCount ≤
      (CB.run (CB.NewCircuitBreaker 2 7) [(0, true), (1, true), (9, false)]).maxFailures ∧
    ((CB.run (CB.NewCircuitBreaker 2 7) [(0, true), (1, true), (9, false)]).state =
        CB.State.StateOpen →
      1 ≤ (CB.run (CB.NewCircuitBreaker 2 7) [(0, true), (1, true), (9, false)]).failureCount) :=
  claim_C10_breaker_invariant 2 7 (by decide) [(0, true), (1, true), (9, false)] _ rfl

/-! ## Order saga state machine (order-service kafka consumer) -/

namespace Saga

/-- Mirrors `models.Order` (order-svc). Amounts are `ℚ`, instants `Int`,
statuses the literal strings of `models.OrderStatus`. -/
structure Order where
  id : Int
  userId : Int
  productId : Int
  quantity : Int
  status : String
  totalPrice : ℚ
  createdAt : Int
  updatedAt : Int
deriving DecidableEq, Repr

/-- Mirrors `models.OrderEvent`, the saga event decoded from the
`order_events` topic. -/
structure OrderEvent where
  orderId : Int
  userId : Int
  productId : Int
  quantity : Int
  status : String
  totalPrice : ℚ
  eventType : String
deriving DecidableEq, Repr

def OrderStatusPending : String := "pending"

def OrderStatusPaid : String := "paid"

def OrderStatusFailed : String := "failed"

/-- Model of the SQL statement
`UPDATE orders SET status = $1, updated_at = CURRENT_TIMESTAMP WHERE id = $2`
executed at instant `now` against the `orders` table: every row matched by
the `WHERE` clause gets the two `SET` assignments, every other row is kept. -/
def updateOrderStatus (db : List Order) (status : String) (orderId : Int)
    (now : Int) : List Order :=
  db.map fun o => if o.id = orderId then { o with status := status, updatedAt := now } else o

/-- Mirrors `handleMessage` of the order-service consumer (the saga switch
on `event.EventType`, source lines 90-113): payment-failure events
overwrite the status to failed, payment-success events to paid, anything
else leaves the table untouched. -/
def handleMessage (db : List Order) (event : OrderEvent) (now : Int) : List Order :=
  if event.eventType = "order_failed" ∨ event.eventType = "payment_failed" then
    updateOrderStatus db OrderStatusFailed event.orderId now
  else if event.eventType = "order_paid" ∨ event.eventType = "payment_success" then
    updateOrderStatus db OrderStatusPaid event.orderId now
  else
    db

end Saga

/-- **C3.** Row-level characterization of the saga transition: consuming
an event preserves the number of rows, and the row at every position `i`
is, for a paid-type event (`order_paid`/`payment_success`), the old row
with only `status := paid` and `updatedAt` refreshed when its id matches
the event's `orderId`; for a failed-type event
(`order_failed`/`payment_failed`) the same with `status := failed`; and
the unchanged old row in every other case (other eventType, or other
orderId). -/
theorem claim_C3_saga_row_transitions (db : List Saga.Order) (e : Saga.OrderEvent)
    (now : Int) :
    (Saga.handleMessage db e now).length = db.length ∧
    ∀ i : Nat, (Saga.handleMessage db e now).get? i = (db.get? i).map (fun o =>
      if (e.eventType = "order_failed" ∨ e.eventType = "payment_failed") ∧
          o.id = e.orderId then
        { o with status := Saga.OrderStatusFailed, updatedAt := now }
      else if (e.eventType = "order_paid" ∨ e.eventType = "payment_success") ∧
          o.id = e.orderId then
        { o with status := Saga.OrderStatusPaid, updatedAt := now }
      else o) := by
  constructor
  · unfold Saga.handleMessage Saga.updateOrderStatus
    split_ifs <;> simp
  · intro i
    unfold Saga.handleMessage Saga.updateOrderStatus
    split_ifs with h1 h2
    · rw [List.get?_map]
      cases hoi : db.get? i with
      | none => rfl
      | some o =>
        simp only [Option.map_some']
        by_cases hid : o.id = e.orderId
        · rw [if_pos hid, if_pos ⟨h1, hid⟩]
        · rw [if_neg hid, if_neg (fun hc => hid hc.2), if_neg (fun hc => hid hc.2)]
    · rw [List.get?_map]
      cases hoi : db.get? i with
      | none => rfl
      | some o =>
        simp only [Option.map_some']
        by_cases hid : o.id = e.orderId
        · rw [if_pos hid, if_neg (fun hc => h1 hc.1), if_pos ⟨h2, hid⟩]
        · rw [if_neg hid, if_neg (fun hc => hid hc.2), if_neg (fun hc => hid hc.2)]
    · cases hoi : db.get? i with
      | none => rfl
      | some o =>
        simp only [Option.map_some']
        rw [if_neg (fun hc => h1 hc.1), if_neg (fun hc => h2 hc.1)]

/-- **C4.** Saga idempotence: because the update is an unconditional
overwrite keyed by `orderId` that never reads the current status,
consuming the same event twice (at any instants) leaves every order with
the same status as consuming it once (at any instant), for every starting
table. -/
theorem claim_C4_saga_idempotent (db : List Saga.Order) (e : Saga.OrderEvent)
    (t1 t2 t3 : Int) :
    (Saga.handleMessage (Saga.handleMessage db e t1) e t2).map Saga.Order.status =
      (Saga.handleMessage db e t3).map Saga.Order.status := by
  unfold Saga.handleMessage Saga.updateOrderStatus
  split_ifs with h1 h2
  · rw [List.map_map, List.map_map, List.map_map]
    apply List.map_congr_left
    intro o _
    by_cases hid : o.id = e.orderId <;>
      simp [Function.comp, hid]
  · rw [List.map_map, List.map_map, List.map_map]
    apply List.map_congr_left
    intro o _
    by_cases hid : o.id = e.orderId <;>
      simp [Function.comp, hid]
  · rfl

/-! ## Payment decision engine (payment-service kafka consumer,
`simulatePayment` and friends) -/

namespace Payment

def PaymentStatusSuccess : String := "success"

def PaymentStatusFailed : String := "failed"

/-- Minimum simulated processing delay, in nanoseconds (200ms). -/
def minProcessingDelay : Int := 200000000

/-- Maximum additional simulated jitter, in nanoseconds (800ms). -/
def maxAdditionalDelay : Int := 800000000

/-- Decimal digit character, the model of one digit produced by
`fmt.Sprintf` with verb `%d` (always applied to values below 10). -/
def digitChar (d : Nat) : Char :=
  match d with
  | 0 => '0'
  | 1 => '1'
  | 2 => '2'
  | 3 => '3'
  | 4 => '4'
  | 5 => '5'
  | 6 => '6'
  | 7 => '7'
  | 8 => '8'
  | _ => '9'

/-- Big-endian decimal digit list of a natural number, the model of the
digit sequence `%d` prints. -/
def natDigits (n : Nat) : List Char :=
  if n < 10 then [digitChar n]
  else natDigits (n / 10) ++ [digitChar (n % 10)]
decreasing_by exact Nat.div_lt_self (by omega) (by omega)

/-- Model of `fmt.Sprintf` verb `%d` on a Go `int`. -/
def intDecimal (i : Int) : String :=
  if i < 0 then "-" ++ String.mk (natDigits i.natAbs) else String.mk (natDigits i.toNat)

/-- The transaction identifier `fmt.Sprintf("TXN-%d-%d", orderID,
time.Now().UnixNano())` synthesized on payment success. -/
def mkTransactionID (orderID nowNano : Int) : String :=
  "TXN-" ++ intDecimal orderID ++ "-" ++ intDecimal nowNano

/-- Observable result of `simulatePayment`: payment status, transaction
id, simulated delay, and the returned error message (if any). -/
structure SimPaymentResult where
  status : String
  transactionID : String
  delay : Int
  err : Option String
deriving DecidableEq, Repr

/-- Mirrors `simulatePayment(orderID, amount)`: the delay draw
(`jitterDraw` models `rng.Int63n(maxAdditionalDelay)`), the hard
`amount <= 0` validation, then the success draw (`successDraw` models
`rng.Float64()`, success iff it is at most `successRate`); on success the
transaction id is synthesized from the order id and the nanosecond
timestamp `nowNano`. -/
def simulatePayment (orderID : Int) (amount successRate : ℚ) (jitterDraw : Int)
    (successDraw : ℚ) (nowNano : Int) : SimPaymentResult :=
  let delay := minProcessingDelay + (if maxAdditionalDelay > 0 then jitterDraw else 0)
  if amount ≤ 0 then
    ⟨PaymentStatusFailed, "", delay, some "invalid payment amount"⟩
  else if successDraw ≤ successRate then
    ⟨PaymentStatusSuccess, mkTransactionID orderID nowNano, delay, none⟩
  else
    ⟨PaymentStatusFailed, "", delay, some "payment authorization declined"⟩

/-- Mirrors `loadSuccessRate`: `none` models an absent or unparsable
`PAYMENT_SUCCESS_RATE` value (default 0.8), and a parsed rate is clamped
to `[0, 1]`. -/
def loadSuccessRate (raw : Option ℚ) : ℚ :=
  match raw with
  | none => 4 / 5
  | some rate => if rate < 0 then 0 else if rate > 1 then 1 else rate

theorem digitChar_ne_dash (d : Nat) : digitChar d ≠ '-' := by
  unfold digitChar
  split <;> decide

theorem natDigits_ne_dash (n : Nat) : ∀ c ∈ natDigits n, c ≠ '-' := by
  induction n using Nat.strong_induction_on with
  | _ n ih =>
    unfold natDigits
    split
    · intro c hc
      rw [List.mem_singleton] at hc
      subst hc
      exact digitChar_ne_dash n
    · intro c hc
      rw [List.mem_append, List.mem_singleton] at hc
      rcases hc with hc | hc
      · exact ih (n / 10) (Nat.div_lt_self (by omega) (by omega)) c hc
      · subst hc
        exact digitChar_ne_dash _

/-- Numeric value of a digit character (inverse of `digitChar`). -/
def digitVal (c : Char) : Nat := c.toNat - 48

theorem digitVal_digitChar (d : Nat) (h : d < 10) : digitVal (digitChar d) = d := by
  interval_cases d <;> decide

theorem foldl_digits (n : Nat) : ∀ a : Nat,
    (natDigits n).foldl (fun a c => 10 * a + digitVal c) a =
      a * 10 ^ (natDigits n).length + n := by
  induction n using Nat.strong_induction_on with
  | _ n ih =>
    intro a
    unfold natDigits
    split
    · next h =>
      simp only [List.foldl_cons, List.foldl_nil, List.length_singleton, pow_one,
        digitVal_digitChar n h]
      ring
    · next h =>
      rw [List.foldl_append]
      rw [ih (n / 10) (Nat.div_lt_self (by omega) (by omega)) a]
      simp only [List.foldl_cons, List.foldl_nil, List.length_append,
        List.length_singleton]
      rw [digitVal_digitChar (n % 10) (Nat.mod_lt n (by omega))]
      have h10 : 10 * (n / 10) + n % 10 = n := Nat.div_add_mod n 10
      calc 10 * (a * 10 ^ (natDigits (n / 10)).length + n / 10) + n % 10
          = a * (10 ^ (natDigits (n / 10)).length * 10) + (10 * (n / 10) + n % 10) := by
            ring
        _ = a * 10 ^ ((natDigits (n / 10)).length + 1) + n := by rw [pow_succ, h10]

/-- Numeric value of a big-endian decimal digit list (the left inverse of
`natDigits`). -/
def valOf (ds : List Char) : Nat := ds.foldl (fun a c => 10 * a + digitVal c) 0

theorem valOf_natDigits (n : Nat) : valOf (natDigits n) = n := by
  have h := foldl_digits n 0
  simpa [valOf] using h

theorem natDigits_inj {m n : Nat} (h : natDigits m = natDigits n) : m = n := by
  rw [← valOf_natDigits m, ← valOf_natDigits n, h]

/-- Splitting at a separator that occurs in neither prefix is unambiguous. -/
theorem append_sep_inj (a : List Char) : ∀ (c : List Char) (b d : List Char),
    (∀ x ∈ a, x ≠ '-') → (∀ x ∈ c, x ≠ '-') →
    a ++ '-' :: b = c ++ '-' :: d → a = c ∧ b = d := by
  induction a with
  | nil =>
    intro c b d _ hc h
    cases c with
    | nil =>
      simp only [List.nil_append] at h
      rw [List.cons.injEq] at h
      exact ⟨rfl, h.2⟩
    | cons y ys =>
      simp only [List.nil_append, List.cons_append, List.cons.injEq] at h
      exact absurd h.1.symm (hc y (by simp))
  | cons x xs ih =>
    intro c b d ha hc h
    cases c with
    | nil =>
      simp only [List.cons_append, List.nil_append, List.cons.injEq] at h
      exact absurd h.1 (ha x (by simp))
    | cons y ys =>
      simp only [List.cons_append, List.cons.injEq] at h
      obtain ⟨hxy, h2⟩ := h
      obtain ⟨h3, h4⟩ := ih ys b d (fun z hz => ha z (by simp [hz]))
        (fun z hz => hc z (by simp [hz])) h2
      exact ⟨by rw [hxy, h3], h4⟩

theorem intDecimal_nonneg (i : Int) (h : 0 ≤ i) :
    intDecimal i = String.mk (natDigits i.toNat) := by
  unfold intDecimal
  rw [if_neg (by omega)]

theorem mkTransactionID_data (o t : Int) (ho : 0 ≤ o) (ht : 0 ≤ t) :
    (mkTransactionID o t).data =
      'T' :: 'X' :: 'N' :: '-' :: (natDigits o.toNat ++ '-' :: natDigits t.toNat) := by
  unfold mkTransactionID
  rw [intDecimal_nonneg o ho, intDecimal_nonneg t ht]
  simp [String.data_append]

theorem mkTransactionID_ne_empty (o t : Int) : mkTransactionID o t ≠ "" := by
  intro h
  have hd := congrArg String.data h
  simp [mkTransactionID, String.data_append] at hd

theorem mkTransactionID_inj (o1 t1 o2 t2 : Int) (ho1 : 0 ≤ o1) (ho2 : 0 ≤ o2)
    (ht1 : 0 ≤ t1) (ht2 : 0 ≤ t2)
    (h : mkTransactionID o1 t1 = mkTransactionID o2 t2) : o1 = o2 ∧ t1 = t2 := by
  have hd := congrArg String.data h
  rw [mkTransactionID_data o1 t1 ho1 ht1, mkTransactionID_data o2 t2 ho2 ht2] at hd
  simp only [List.cons.injEq, true_and] at hd
  obtain ⟨h1, h2⟩ := append_sep_inj _ _ _ _ (natDigits_ne_dash _) (natDigits_ne_dash _) hd
  constructor
  · have h3 := natDigits_inj h1
    omega
  · have h3 := natDigits_inj h2
    omega

end Payment

/-- **C5.** A non-positive amount is a hard decision failure: the engine
returns a `failed` payment outcome, and the whole result is independent
of the success draw (the success branch is unreachable). -/
theorem claim_C5_nonpositive_amount_always_fails (orderID : Int)
    (amount successRate : ℚ) (jitter : Int) (d1 d2 : ℚ) (nowNano : Int)
    (h : amount ≤ 0) :
    (Payment.simulatePayment orderID amount successRate jitter d1 nowNano).status =
      Payment.PaymentStatusFailed ∧
    Payment.simulatePayment orderID amount successRate jitter d1 nowNano =
      Payment.simulatePayment orderID amount successRate jitter d2 nowNano := by
  unfold Payment.simulatePayment
  rw [if_pos h, if_pos h]
  exact ⟨rfl, rfl⟩

/-- Witness for C5: `amount = 0`, two different success draws (one below
and one above any rate), identical failed outcome. -/
theorem claim_C5_witness :
    (Payment.simulatePayment 42 0 (4 / 5) 7 0 123).status =
      Payment.PaymentStatusFailed ∧
    Payment.simulatePayment 42 0 (4 / 5) 7 0 123 =
      Payment.simulatePayment 42 0 (4 / 5) 7 1 123 :=
  claim_C5_nonpositive_amount_always_fails 42 0 (4 / 5) 7 0 1 123 (by norm_num)

/-- **C8.** The transaction id of a payment decision is non-empty exactly
when the decision succeeded; on success it is
`TXN-<orderId>-<nanoTimestamp>` built from the order id and the nanosecond
timestamp; and the formatting is injective on (non-negative) id/timestamp
pairs, so ids built from distinct pairs are distinct (global uniqueness
across payments). -/
theorem claim_C8_transaction_id (orderID : Int) (amount successRate : ℚ)
    (jitter : Int) (draw : ℚ) (nowNano : Int) :
    ((Payment.simulatePayment orderID amount successRate jitter draw nowNano).status =
        Payment.PaymentStatusSuccess ↔
      (Payment.simulatePayment orderID amount successRate jitter draw
          nowNano).transactionID ≠ "") ∧
    ((Payment.simulatePayment orderID amount successRate jitter draw nowNano).status =
        Payment.PaymentStatusSuccess →
      (Payment.simulatePayment orderID amount successRate jitter draw
          nowNano).transactionID = Payment.mkTransactionID orderID nowNano) ∧
    (∀ o1 t1 o2 t2 : Int, 0 ≤ o1 → 0 ≤ o2 → 0 ≤ t1 → 0 ≤ t2 →
      Payment.mkTransactionID o1 t1 = Payment.mkTransactionID o2 t2 →
      o1 = o2 ∧ t1 = t2) := by
  refine ⟨?_, ?_, fun o1 t1 o2 t2 ho1 ho2 ht1 ht2 h =>
    Payment.mkTransactionID_inj o1 t1 o2 t2 ho1 ho2 ht1 ht2 h⟩ <;>
    unfold Payment.simulatePayment <;>
    split_ifs <;>
    dsimp only <;>
    first
      | (exact ⟨fun _ => Payment.mkTransactionID_ne_empty orderID nowNano, fun _ => rfl⟩)
      | (exact ⟨fun hx => absurd hx (by decide), fun hx => absurd rfl hx⟩)
      | (exact fun _ => rfl)
      | (exact fun hx => absurd hx (by decide))

/-- Witness for C8: a succeeding decision (`successRate = 1`, draw 0) at
`orderId = 42`, timestamp 7: non-empty transaction id of the claimed
form, and injectivity applied at the pair (42, 7). -/
theorem claim_C8_witness :
    (Payment.simulatePayment 42 100 1 0 0 7).transactionID ≠ "" ∧
    (Payment.simulatePayment 42 100 1 0 0 7).transactionID =
      Payment.mkTransactionID 42 7 ∧
    ((42 : Int) = 42 ∧ (7 : Int) = 7) := by
  have h := claim_C8_transaction_id 42 100 1 0 0 7
  exact ⟨h.1.mp (by decide), h.2.1 (by decide),
    h.2.2 42 7 42 7 (by decide) (by decide) (by decide) (by decide) rfl⟩

/-! ## Event bus: JSON payloads, serialization, trace-header carriers -/

namespace Bus

/-- Model of a JSON value as decoded into a Go `interface\x7b\x7d`. -/
inductive JVal where
  | jstr (s : String)
  | jnum (q : ℚ)
  | jbool (b : Bool)
  | jnull
deriving DecidableEq, Repr

/-- A decoded JSON object (`map[string]interface\x7b\x7d`), as an
association list. -/
abbrev JObj := List (String × JVal)

/-- Result of `json.Unmarshal` on a raw message payload: `none` models a
payload that fails to decode. -/
abbrev Decoded := Option JObj

/-- First value bound to a key in a decoded object. -/
def lookupField (kvs : JObj) (k : String) : Option JVal :=
  match kvs with
  | [] => none
  | (k2, v) :: rest => if k2 = k then some v else lookupField rest k

/-- `json.Marshal` of `models.OrderEvent` with its struct tags: the JSON
object carrying the seven tagged fields. -/
def marshalOrderEvent (e : Saga.OrderEvent) : JObj :=
  [("order_id", JVal.jnum (e.orderId : ℚ)),
   ("user_id", JVal.jnum (e.userId : ℚ)),
   ("product_id", JVal.jnum (e.productId : ℚ)),
   ("quantity", JVal.jnum (e.quantity : ℚ)),
   ("status", JVal.jstr e.status),
   ("total_price", JVal.jnum e.totalPrice),
   ("event_type", JVal.jstr e.eventType)]

/-- Go unmarshalling of a JSON value into an `int` field: a missing key
leaves the zero value, an integral number is accepted, anything else is
a decode error. -/
def getIntField (kvs : JObj) (k : String) : Except String Int :=
  match lookupField kvs k with
  | none => Except.ok 0
  | some (JVal.jnum q) =>
    if q.den = 1 then Except.ok q.num else Except.error "cannot unmarshal number into int"
  | some _ => Except.error "cannot unmarshal value into int"

/-- Go unmarshalling into a `float64` field. -/
def getRatField (kvs : JObj) (k : String) : Except String ℚ :=
  match lookupField kvs k with
  | none => Except.ok 0
  | some (JVal.jnum q) => Except.ok q
  | some _ => Except.error "cannot unmarshal value into float64"

/-- Go unmarshalling into a `string` field. -/
def getStrField (kvs : JObj) (k : String) : Except String String :=
  match lookupField kvs k with
  | none => Except.ok ""
  | some (JVal.jstr s) => Except.ok s
  | some _ => Except.error "cannot unmarshal value into string"

/-- `json.Unmarshal` of a decoded object into `models.OrderEvent`. -/
def unmarshalOrderEvent (kvs : JObj) : Except String Saga.OrderEvent := do
  let orderId ← getIntField kvs "order_id"
  let userId ← getIntField kvs "user_id"
  let productId ← getIntField kvs "product_id"
  let quantity ← getIntField kvs "quantity"
  let status ← getStrField kvs "status"
  let totalPrice ← getRatField kvs "total_price"
  let eventType ← getStrField kvs "event_type"
  Except.ok ⟨orderId, userId, productId, quantity, status, totalPrice, eventType⟩

/-- Producer-side carrier `Set` (saramaHeaderCarrier): appends one
key/value header. -/
def carrierSet (c : List (String × String)) (k v : String) : List (String × String) :=
  c ++ [(k, v)]

/-- The propagator injecting its pairs into an initially empty carrier
(`make(saramaHeaderCarrier, 0)` followed by `Set` per pair). -/
def injectAll (pairs : List (String × String)) : List (String × String) :=
  pairs.foldl (fun c kv => carrierSet c kv.1 kv.2) []

/-- Consumer-side carrier `Get` (saramaHeaderCarrierConsumer): the value
of the first header with the key, or the empty string. -/
def carrierGet (c : List (String × String)) (k : String) : String :=
  match c with
  | [] => ""
  | (k2, v) :: rest => if k2 = k then v else carrierGet rest k

theorem foldl_carrierSet (pairs : List (String × String)) :
    ∀ c : List (String × String),
      pairs.foldl (fun c kv => carrierSet c kv.1 kv.2) c = c ++ pairs := by
  induction pairs with
  | nil => intro c; simp
  | cons p ps ih =>
    intro c
    rw [List.foldl_cons, ih]
    simp [carrierSet]

theorem injectAll_eq (pairs : List (String × String)) : injectAll pairs = pairs := by
  unfold injectAll
  rw [foldl_carrierSet]
  simp

theorem carrierGet_of_mem (pairs : List (String × String)) (k v : String)
    (hnd : (pairs.map Prod.fst).Nodup) (hmem : (k, v) ∈ pairs) :
    carrierGet pairs k = v := by
  induction pairs with
  | nil => cases hmem
  | cons p ps ih =>
    rw [List.map_cons, List.nodup_cons] at hnd
    cases hmem with
    | head =>
      unfold carrierGet
      rw [if_pos rfl]
    | tail _ hmem2 =>
      unfold carrierGet
      cases p with
      | mk k2 v2 =>
        by_cases hk : k2 = k
        · exfalso
          apply hnd.1
          rw [hk]
          exact List.mem_map.mpr ⟨(k, v), hmem2, rfl⟩
        · rw [if_neg hk]
          exact ih hnd.2 hmem2

end Bus

/-- **C9.** Publish/consume round trip: unmarshalling the marshalled form
of any `OrderEvent` yields the event back field-for-field; and any set of
trace headers with pairwise-distinct keys injected into the (initially
empty) producer carrier is recovered exactly by the consumer carrier's
`Get`, so the active trace identifier survives the trip. -/
theorem claim_C9_roundtrip :
    (∀ e : Saga.OrderEvent,
      Bus.unmarshalOrderEvent (Bus.marshalOrderEvent e) = Except.ok e) ∧
    (∀ pairs : List (String × String), (pairs.map Prod.fst).Nodup →
      ∀ k v : String, (k, v) ∈ pairs → Bus.carrierGet (Bus.injectAll pairs) k = v) := by
  constructor
  · intro e
    simp [Bus.unmarshalOrderEvent, Bus.marshalOrderEvent, Bus.getIntField,
      Bus.getRatField, Bus.getStrField, Bus.lookupField, Rat.den_intCast,
      Rat.num_intCast]
    rfl
  · intro pairs hnd k v hmem
    rw [Bus.injectAll_eq]
    exact Bus.carrierGet_of_mem pairs k v hnd hmem

/-- Witness for C9: a concrete event and a two-header carrier. -/
theorem claim_C9_witness :
    Bus.unmarshalOrderEvent (Bus.marshalOrderEvent
      ⟨42, 7, 3, 2, "pending", 100, "order_created"⟩) =
      Except.ok ⟨42, 7, 3, 2, "pending", 100, "order_created"⟩ ∧
    Bus.carrierGet (Bus.injectAll [("traceparent", "00-abc"), ("tracestate", "x=1")])
      "traceparent" = "00-abc" := by
  have h := claim_C9_roundtrip
  exact ⟨h.1 ⟨42, 7, 3, 2, "pending", 100, "order_created"⟩,
    h.2 [("traceparent", "00-abc"), ("tracestate", "x=1")] (by decide) "traceparent"
      "00-abc" (by decide)⟩

/-! ## Consumer handler results, notification dispatcher, payment/saga
consumer wrappers -/

namespace Bus

/-- Result a message handler returns to its consumer loop: `nil` or an
error (which every loop merely logs before continuing). -/
inductive HandleResult where
  | ok
  | err (msg : String)
deriving DecidableEq, Repr

end Bus

namespace Notification

/-- One second in nanoseconds (`time.Second`). -/
def secondNs : Int := 1000000000

/-- Observable trace of `handleMessageWithRetry` on one message: how many
times `handleMessage` ran, the backoff sleeps between attempts in order,
and whether some attempt returned `nil`. -/
structure RetryTrace where
  attempts : Nat
  backoffs : List Int
  ok : Bool
deriving DecidableEq, Repr

/-- The retry loop of `handleMessageWithRetry`
(`for attempt := 1; attempt <= maxRetries; attempt++`), in fuelled form:
`attempt` is the loop counter and the fuel is the number of remaining
iterations (`maxRetries - attempt + 1`), so `fuel = 0` is loop exit and
`fuel = 1` means this is the last attempt (`attempt = maxRetries`, no
backoff after it). `outcome attempt = true` models `handleMessage`
returning `nil` on that attempt. -/
def retryGo (outcome : Nat → Bool) (attempt : Nat) : Nat → RetryTrace
  | 0 => ⟨0, [], false⟩
  | fuel + 1 =>
    if outcome attempt then ⟨1, [], true⟩
    else if fuel = 0 then ⟨1, [], false⟩
    else
      let rest := retryGo outcome (attempt + 1) fuel
      ⟨rest.attempts + 1, ((attempt : Int) * secondNs) :: rest.backoffs, rest.ok⟩

/-- Mirrors `handleMessageWithRetry(message, logger, maxRetries)`. -/
def handleMessageWithRetry (outcome : Nat → Bool) (maxRetries : Nat) : RetryTrace :=
  retryGo outcome 1 maxRetries

/-- Mirrors the decode prefix of the notification `handleMessage`: a
payload that fails `json.Unmarshal` or lacks a string `event_type` is an
error; otherwise the event-type switch runs (all branches, the unknown
default included, return `nil`). -/
def handleMessage (payload : Bus.Decoded) : Bus.HandleResult :=
  match payload with
  | none => Bus.HandleResult.err "failed to unmarshal event"
  | some kvs =>
    match Bus.lookupField kvs "event_type" with
    | some (Bus.JVal.jstr _) => Bus.HandleResult.ok
    | _ => Bus.HandleResult.err "missing event_type in event"

/-- On a handler that fails every attempt, the dispatcher wired with
`maxRetries = 3` makes exactly 3 attempts with backoffs 1s and 2s and
reports failure. -/
theorem handleMessageWithRetry_allfail3 (outcome : Nat → Bool)
    (hfail : ∀ a, outcome a = false) :
    handleMessageWithRetry outcome 3 = ⟨3, [1 * secondNs, 2 * secondNs], false⟩ := by
  unfold handleMessageWithRetry
  simp [retryGo, hfail]

end Notification

namespace PaymentConsumer

/-- A row of the `payments` table as inserted by `persistPayment`. -/
structure PaymentRow where
  id : Int
  orderId : Int
  userId : Int
  amount : ℚ
  status : String
  transactionId : String
deriving DecidableEq, Repr

/-- Mirrors the `orderCreatedEvent` struct the live payment consumer
decodes into. -/
structure OrderCreatedEvent where
  eventType : String
  orderId : Int
  userId : Int
  productId : Int
  quantity : Int
  totalPrice : ℚ
deriving DecidableEq, Repr

/-- The id `INSERT ... RETURNING id` hands back (serial column). -/
def nextId (db : List PaymentRow) : Int := (db.length : Int) + 1

/-- `json.Unmarshal` of a decoded JSON object into `orderCreatedEvent`,
with Go's typed-field semantics: a missing key leaves the zero value, a
value of the wrong type (e.g. a numeric `event_type`) is an
UnmarshalTypeError, a fractional number cannot enter an `int` field. -/
def unmarshalOrderCreatedEvent (kvs : Bus.JObj) : Except String OrderCreatedEvent := do
  let eventType ← Bus.getStrField kvs "event_type"
  let orderId ← Bus.getIntField kvs "order_id"
  let userId ← Bus.getIntField kvs "user_id"
  let productId ← Bus.getIntField kvs "product_id"
  let quantity ← Bus.getIntField kvs "quantity"
  let totalPrice ← Bus.getRatField kvs "total_price"
  Except.ok ⟨eventType, orderId, userId, productId, quantity, totalPrice⟩

/-- Mirrors `handleMessage` of the live payment consumer
(src/unnamed/part_008, lines 113-209, the consumer-group handler wired by
payment-service/main.go): a payload that fails the typed
`json.Unmarshal` — malformed JSON (`none`) or a field of the wrong type —
is an error (the wrapped json error detail is abstracted; `ConsumeClaim`
logs it without marking the message and continues); a decoded event whose
`eventType` is not `order_created` is skipped with `nil`; otherwise
`simulatePayment` decides the Payment row that `persistPayment` appends.
Returns the handler result and the payments table after the call. -/
def handleMessage (payload : Bus.Decoded) (successRate : ℚ) (jitterDraw : Int)
    (successDraw : ℚ) (nowNano : Int) (db : List PaymentRow) :
    Bus.HandleResult × List PaymentRow :=
  match payload with
  | none => (Bus.HandleResult.err "failed to unmarshal event", db)
  | some kvs =>
    match unmarshalOrderCreatedEvent kvs with
    | Except.error _ => (Bus.HandleResult.err "failed to unmarshal event", db)
    | Except.ok evt =>
      if evt.eventType = "order_created" then
        let r := Payment.simulatePayment evt.orderId evt.totalPrice successRate
          jitterDraw successDraw nowNano
        (Bus.HandleResult.ok,
          db ++ [⟨nextId db, evt.orderId, evt.userId, evt.totalPrice,
            r.status, r.transactionID⟩])
      else (Bus.HandleResult.ok, db)

end PaymentConsumer

namespace Saga

end Saga

/-- **C6 counterexample.** With `maxRetries = 3` (as `StartConsumer`
passes) and a delivery that fails every attempt, the dispatcher makes 3
total attempts, not the 4 total attempts (3 retries after the first
failure) the claim states: the loop runs `attempt = 1..maxRetries`. -/
theorem claim_C6_counterexample :
    (Notification.handleMessageWithRetry (fun _ => false) 3).attempts = 3 ∧
    ¬((Notification.handleMessageWithRetry (fun _ => false) 3).attempts = 4) := by
  constructor
  · rfl
  · intro h
    simp [Notification.handleMessageWithRetry, Notification.retryGo] at h

/-- **C6 (amended).** For any handler outcome that fails on every
attempt, the dispatcher wired with `maxRetries = 3` performs exactly 2
additional retry attempts (3 total attempts), sleeping `attempt * 1s`
between consecutive attempts (1s then 2s), and then gives up with an
error that the consumer loop only logs: no further attempts occur for
that message. -/
theorem claim_C6_retry_behavior (outcome : Nat → Bool)
    (hfail : ∀ a, outcome a = false) :
    Notification.handleMessageWithRetry outcome 3 =
      ⟨3, [1 * Notification.secondNs, 2 * Notification.secondNs], false⟩ :=
  Notification.handleMessageWithRetry_allfail3 outcome hfail

/-- Witness for C6: the concrete always-failing handler. -/
theorem claim_C6_witness :
    Notification.handleMessageWithRetry (fun _ => false) 3 =
      ⟨3, [1 * Notification.secondNs, 2 * Notification.secondNs], false⟩ :=
  claim_C6_retry_behavior (fun _ => false) (fun _ => rfl)

end MiniShop
